import Mathlib

/-!
Shallow embedding of the Tetris engine from `tetris.py` (classes `Piece`,
`Board`, `Game`, and the generator `bag_generator`), together with proofs
about the claims on its behaviour.  Python lists become `List`, `None`
becomes `none`, int coordinates become `Int`, and the infinite bag
generator is threaded as an explicit list of future draws.
-/

namespace Tetris

/-- The seven tetromino kinds, in the insertion order of the `PIECES` dict. -/
inductive Kind
  | I | J | L | O | S | T | Z
deriving DecidableEq, Repr

/-- `PIECES[kind]`: the four rotation states, each a list of `(x, y)` cell
coordinates, copied from the `PIECES` table of the source. -/
def pieceTable (k : Kind) : List (List (Int × Int)) :=
  match k with
  | .I => [[(0,1), (1,1), (2,1), (3,1)],
           [(2,0), (2,1), (2,2), (2,3)],
           [(0,2), (1,2), (2,2), (3,2)],
           [(1,0), (1,1), (1,2), (1,3)]]
  | .J => [[(0,0), (0,1), (1,1), (2,1)],
           [(1,0), (2,0), (1,1), (1,2)],
           [(0,1), (1,1), (2,1), (2,2)],
           [(1,0), (1,1), (0,2), (1,2)]]
  | .L => [[(2,0), (0,1), (1,1), (2,1)],
           [(1,0), (1,1), (1,2), (2,2)],
           [(0,1), (1,1), (2,1), (0,2)],
           [(0,0), (1,0), (1,1), (1,2)]]
  | .O => [[(1,0), (2,0), (1,1), (2,1)],
           [(1,0), (2,0), (1,1), (2,1)],
           [(1,0), (2,0), (1,1), (2,1)],
           [(1,0), (2,0), (1,1), (2,1)]]
  | .S => [[(1,0), (2,0), (0,1), (1,1)],
           [(1,0), (1,1), (2,1), (2,2)],
           [(1,1), (2,1), (0,2), (1,2)],
           [(0,0), (0,1), (1,1), (1,2)]]
  | .T => [[(1,0), (0,1), (1,1), (2,1)],
           [(1,0), (1,1), (2,1), (1,2)],
           [(0,1), (1,1), (2,1), (1,2)],
           [(1,0), (0,1), (1,1), (1,2)]]
  | .Z => [[(0,0), (1,0), (1,1), (2,1)],
           [(2,0), (1,1), (2,1), (1,2)],
           [(0,1), (1,1), (1,2), (2,2)],
           [(1,0), (0,1), (1,1), (0,2)]]

/-- `Piece.cells(x, y, rot)` for a given kind: the block coordinates of
rotation state `r` translated by `(x, y)`. -/
def cellsAt (k : Kind) (r : Fin 4) (x y : Int) : List (Int × Int) :=
  ((pieceTable k).getD r.val []).map (fun c => (x + c.1, y + c.2))

/-- The `Piece` class: kind, rotation state (always kept in `0..3` by the
source via `% 4`), and position. -/
structure Piece where
  kind : Kind
  rot : Fin 4
  x : Int
  y : Int
deriving DecidableEq, Repr

/-- `Piece.__init__`: rotation 0, position `(3, 0)` for every kind. -/
def Piece.init (k : Kind) : Piece := ⟨k, 0, 3, 0⟩

/-- `Piece.cells()` at the piece's own position and rotation. -/
def Piece.cells (p : Piece) : List (Int × Int) :=
  cellsAt p.kind p.rot p.x p.y

/-- One grid cell: `None` or a locked piece kind. -/
abbrev Cell := Option Kind

/-- One grid row. -/
abbrev Row := List Cell

/-- `self.grid[y][x]`, with out-of-range reads defaulting to an empty cell. -/
def cellGet (g : List Row) (y x : Nat) : Cell := (g.getD y []).getD x none

/-- The `Board` class: width, height and the grid (a list of rows). -/
structure Board where
  w : Nat
  h : Nat
  grid : List Row
deriving DecidableEq, Repr

/-- `Board.__init__(w, h)`: an `h × w` grid of empty cells. -/
def Board.init (w h : Nat) : Board :=
  ⟨w, h, List.replicate h (List.replicate w none)⟩

/-- `Board.collides(cells)`: a cell collides when it is out of the side or
bottom bounds, or sits on an occupied grid cell (cells above the top,
`y < 0`, only collide on the side bounds). -/
def Board.collides (b : Board) (cs : List (Int × Int)) : Bool :=
  cs.any fun c =>
    decide (c.1 < 0) || decide ((b.w : Int) ≤ c.1) || decide ((b.h : Int) ≤ c.2) ||
      (decide (0 ≤ c.2) && (cellGet b.grid c.2.toNat c.1.toNat).isSome)

/-- `all(c is not None for c in row)`: the row is fully occupied. -/
def isFull (r : Row) : Bool := r.all fun c => c.isSome

/-- The write phase of `Board.lock` for one cell: `if 0 <= y < self.h:
self.grid[y][x] = piece.kind`. -/
def writeCell (hgt : Nat) (k : Kind) (g : List Row) (c : Int × Int) : List Row :=
  if 0 ≤ c.2 ∧ c.2 < (hgt : Int) then
    g.set c.2.toNat ((g.getD c.2.toNat []).set c.1.toNat (some k))
  else g

/-- The write phase of `Board.lock` over all cells of the piece. -/
def writeCells (hgt : Nat) (k : Kind) (g : List Row) (cs : List (Int × Int)) : List Row :=
  cs.foldl (writeCell hgt k) g

/-- `[i for i, a in enumerate(l) if p a]`: indices of entries satisfying
`p`, in increasing order. -/
def idxP (p : α → Bool) : List α → List Nat
  | [] => []
  | a :: t => if p a then 0 :: (idxP p t).map (· + 1) else (idxP p t).map (· + 1)

/-- One iteration of the clear loop of `Board.lock`:
`del self.grid[i]; self.grid.insert(0, [None] * w)`. -/
def clearOne {α : Type} (e : α) (g : List α) (i : Nat) : List α :=
  e :: g.eraseIdx i

/-- `Board.lock(piece)`: write the piece's cells (rows `0 ≤ y < h` only),
then delete every fully occupied row, inserting an empty row at the top
for each; returns the new board and the number of rows cleared. -/
def Board.lock (b : Board) (p : Piece) : Board × Nat :=
  let g1 := writeCells b.h p.kind b.grid p.cells
  let full := idxP isFull g1
  let g2 := full.foldl (clearOne (List.replicate b.w none)) g1
  ({ b with grid := g2 }, full.length)

/-- `Board.top_out()`: the loop tests, for each column `x`, whether
`grid[0][x]` is occupied and some of `grid[0][x]`, `grid[1][x]` is. -/
def Board.top_out (b : Board) : Bool :=
  (List.range b.w).any fun x =>
    (cellGet b.grid 0 x).isSome &&
      (List.range 2).any fun y => (cellGet b.grid y x).isSome

/-- `KICKS_JLSTZ.get((a, b), [(0,0)])`: the SRS wall-kick offsets used for
every kind except `I`. -/
def kicksJLSTZ (a b : Nat) : List (Int × Int) :=
  match a, b with
  | 0, 1 => [(0,0), (-1,0), (-1,-1), (0,2), (-1,2)]
  | 1, 0 => [(0,0), (1,0), (1,1), (0,-2), (1,-2)]
  | 1, 2 => [(0,0), (1,0), (1,1), (0,-2), (1,-2)]
  | 2, 1 => [(0,0), (-1,0), (-1,-1), (0,2), (-1,2)]
  | 2, 3 => [(0,0), (1,0), (1,-1), (0,2), (1,2)]
  | 3, 2 => [(0,0), (-1,0), (-1,1), (0,-2), (-1,-2)]
  | 3, 0 => [(0,0), (-1,0), (-1,1), (0,-2), (-1,-2)]
  | 0, 3 => [(0,0), (1,0), (1,-1), (0,2), (1,2)]
  | _, _ => [(0,0)]

/-- `KICKS_I.get((a, b), [(0,0)])`: the `I`-specific wall-kick offsets. -/
def kicksI (a b : Nat) : List (Int × Int) :=
  match a, b with
  | 0, 1 => [(0,0), (-2,0), (1,0), (-2,1), (1,-2)]
  | 1, 0 => [(0,0), (2,0), (-1,0), (2,-1), (-1,2)]
  | 1, 2 => [(0,0), (-1,0), (2,0), (-1,-2), (2,1)]
  | 2, 1 => [(0,0), (1,0), (-2,0), (1,2), (-2,-1)]
  | 2, 3 => [(0,0), (2,0), (-1,0), (2,-1), (-1,2)]
  | 3, 2 => [(0,0), (-2,0), (1,0), (-2,1), (1,-2)]
  | 3, 0 => [(0,0), (1,0), (-2,0), (1,2), (-2,-1)]
  | 0, 3 => [(0,0), (-1,0), (2,0), (-1,-2), (2,1)]
  | _, _ => [(0,0)]

/-- `kicks = KICKS_I if kind == I else KICKS_JLSTZ`, looked up at
`(old_rot, new_rot)`. -/
def kickTable (k : Kind) (a b : Fin 4) : List (Int × Int) :=
  if k = .I then kicksI a.val b.val else kicksJLSTZ a.val b.val

/-- `next(self.bag)`: pop the next draw off the modelled draw stream (the
real generator is infinite; an exhausted list yields a default draw, a
situation the theorems always supply enough draws to avoid). -/
def drawBag : List Kind → Kind × List Kind
  | [] => (.I, [])
  | k :: r => (k, r)

/-- `[next(self.bag) for _ in range(n)]`. -/
def drawN : Nat → List Kind → List Kind × List Kind
  | 0, b => ([], b)
  | n + 1, b =>
    let r := drawBag b
    let rs := drawN n r.2
    (r.1 :: rs.1, rs.2)

/-- The `Game` class.  The pygame timing fields are exact rationals here;
the infinite bag generator is the explicit list `bag` of future draws. -/
structure Game where
  board : Board
  bag : List Kind
  next_queue : List Kind
  current : Piece
  hold : Option Kind
  hold_used : Bool
  score : Nat
  level : Nat
  lines : Nat
  drop_cooldown : ℚ
  gravity_timer : ℚ
  game_over : Bool
  paused : Bool
deriving DecidableEq, Repr

/-- The nine spawn-adjustment offsets `(dx, dy)` probed by `spawn_new`, in
loop order: `for dy in (0, -1, 1): for dx in (0, -1, 1)`. -/
def nudgeOffsets : List (Int × Int) :=
  [(0,0), (-1,0), (1,0), (0,-1), (-1,-1), (1,-1), (0,1), (-1,1), (1,1)]

/-- The spawn-adjustment loop: return the first offset whose translated
cells do not collide, or `none` when every probe collides. -/
def probe (b : Board) (p : Piece) : List (Int × Int) → Option (Int × Int)
  | [] => none
  | c :: rest =>
    if b.collides (cellsAt p.kind p.rot (p.x + c.1) (p.y + c.2)) then
      probe b p rest
    else some c

/-- The first half of `spawn_new`: move the queue head (or a fresh draw)
into `current`, append one draw to the queue, and clear `hold_used`. -/
def Game.spawnPrep (g : Game) : Game :=
  let kqb : Kind × List Kind × List Kind :=
    match g.next_queue with
    | [] => ((drawBag g.bag).1, ([] : List Kind), (drawBag g.bag).2)
    | k :: rest => (k, rest, g.bag)
  let r2 := drawBag kqb.2.2
  { g with current := Piece.init kqb.1, next_queue := kqb.2.1 ++ [r2.1],
           bag := r2.2, hold_used := false }

/-- `Game.spawn_new`: refill current/queue, then if the spawn position
collides probe the nudge offsets; accept the first free one or set
`game_over` when all nine collide. -/
def Game.spawn_new (g : Game) : Game :=
  let g1 := g.spawnPrep
  if g1.board.collides g1.current.cells then
    match probe g1.board g1.current nudgeOffsets with
    | some c =>
      { g1 with current := { g1.current with x := g1.current.x + c.1,
                                             y := g1.current.y + c.2 } }
    | none => { g1 with game_over := true }
  else g1

/-- `Game.try_move(dx, dy)`: returns the updated state and the boolean the
method returns (`True` exactly when the piece moved). -/
def Game.try_move (g : Game) (dx dy : Int) : Game × Bool :=
  if g.game_over || g.paused then (g, false)
  else
    let nx := g.current.x + dx
    let ny := g.current.y + dy
    if g.board.collides (cellsAt g.current.kind g.current.rot nx ny) then (g, false)
    else ({ g with current := { g.current with x := nx, y := ny } }, true)

/-- `{1: 100, 2: 300, 3: 500, 4: 800}.get(cleared, 0)`. -/
def scoreTable : Nat → Nat
  | 1 => 100
  | 2 => 300
  | 3 => 500
  | 4 => 800
  | _ => 0

/-- `Game.lock_and_clear`: commit the piece, award line-clear points times
the pre-clear level, update lines and level, then either end the game on
`top_out` or spawn the next piece. -/
def Game.lock_and_clear (g : Game) : Game :=
  let b1 := (g.board.lock g.current).1
  let cleared := (g.board.lock g.current).2
  let g1 := { g with board := b1 }
  let g2 :=
    if cleared ≠ 0 then
      let lines1 := g1.lines + cleared
      let newLevel := 1 + lines1 / 10
      { g1 with score := g1.score + scoreTable cleared * g1.level,
                lines := lines1,
                level := if newLevel ≠ g1.level then newLevel else g1.level }
    else g1
  if g2.board.top_out then { g2 with game_over := true }
  else g2.spawn_new

/-- `Game.soft_drop`: lock when the downward move fails, otherwise award
the one-point soft-drop reward. -/
def Game.soft_drop (g : Game) : Game :=
  let r := g.try_move 0 1
  if r.2 then { r.1 with score := r.1.score + 1 }
  else r.1.lock_and_clear

/-- Fuel bound for the descent loops of `hard_drop` and `ghost_y`: the
piece collides at the latest once it is past the board's bottom row, so
`h + 1 - y` downward probes always suffice. -/
def Game.dropFuel (g : Game) : Nat :=
  ((g.board.h : Int) + 1 - g.current.y).toNat

/-- The `while self.try_move(0, 1): dist += 1` loop of `hard_drop`. -/
def Game.hardDropAux : Game → Nat → Nat → Game × Nat
  | g, 0, d => (g, d)
  | g, fuel + 1, d =>
    let r := g.try_move 0 1
    if r.2 then Game.hardDropAux r.1 fuel (d + 1) else (g, d)

/-- `Game.hard_drop`: descend as far as possible, award `2 * dist`, then
lock. -/
def Game.hard_drop (g : Game) : Game :=
  let r := g.hardDropAux g.dropFuel 0
  ({ r.1 with score := r.1.score + 2 * r.2 }).lock_and_clear

/-- `Game.rotate(dir)`: compute the target rotation (`% 4`), then accept
the first wall-kick candidate whose cells do not collide; when every
candidate collides nothing changes. -/
def Game.rotate (g : Game) (dir : Int) : Game :=
  if g.game_over || g.paused then g
  else
    let oldRot := g.current.rot
    let newRot : Fin 4 := oldRot + (if 0 < dir then 1 else 3)
    let cands := kickTable g.current.kind oldRot newRot
    match cands.find? (fun c =>
        !(g.board.collides
            (cellsAt g.current.kind newRot (g.current.x + c.1) (g.current.y + c.2)))) with
    | some c =>
      { g with current := { g.current with rot := newRot,
                                           x := g.current.x + c.1,
                                           y := g.current.y + c.2 } }
    | none => g

/-- `Game.hold_piece`: hold once per drop; the first-ever hold stores the
kind and spawns, a later hold swaps with the stored kind at the reset
position and ends the game if the swapped-in piece collides. -/
def Game.hold_piece (g : Game) : Game :=
  if g.game_over || g.paused || g.hold_used then g
  else
    match g.hold with
    | none =>
      ({ g with hold := some g.current.kind, hold_used := true }).spawn_new
    | some hk =>
      let cur := Piece.init hk
      let g1 := { g with hold := some g.current.kind, current := cur,
                         hold_used := true }
      if g1.board.collides cur.cells then { g1 with game_over := true } else g1

/-- `Game.fall_speed()`: `max(0.10, 0.55 - (level - 1) * 0.05)` as an
exact rational. -/
def Game.fall_speed (g : Game) : ℚ :=
  max (1/10) (11/20 - ((g.level : ℚ) - 1) * (1/20))

/-- `Game.tick(dt, keys)` (the `keys` argument is unused by the source). -/
def Game.tick (g : Game) (dt : ℚ) : Game :=
  if g.game_over || g.paused then g
  else
    let g1 := { g with gravity_timer := g.gravity_timer + dt }
    if g1.fall_speed ≤ g1.gravity_timer then
      let g2 := { g1 with gravity_timer := 0 }
      let r := g2.try_move 0 1
      if r.2 then r.1 else r.1.lock_and_clear
    else g1

/-- The descent loop of `ghost_y`, parameterised over the data it reads
(board, kind, rotation, column) with the running row explicit. -/
def ghostAux (b : Board) (k : Kind) (r : Fin 4) (x : Int) : Nat → Int → Int
  | 0, y => y
  | fuel + 1, y =>
    if b.collides (cellsAt k r x (y + 1)) then y
    else ghostAux b k r x fuel (y + 1)

/-- `Game.ghost_y()`: the row at which the current piece would land. -/
def Game.ghost_y (g : Game) : Int :=
  ghostAux g.board g.current.kind g.current.rot g.current.x g.dropFuel g.current.y

/-- `Game.__init__`: empty `10 × 20` board, five queued draws, one draw
made current (and immediately discarded by the final `spawn_new()` call),
zeroed counters, then `spawn_new`. -/
def Game.init (bag0 : List Kind) : Game :=
  let r5 := drawN 5 bag0
  let r6 := drawBag r5.2
  let g0 : Game :=
    { board := Board.init 10 20, bag := r6.2, next_queue := r5.1,
      current := Piece.init r6.1, hold := none, hold_used := false,
      score := 0, level := 1, lines := 0,
      drop_cooldown := 1/2, gravity_timer := 0,
      game_over := false, paused := false }
  g0.spawn_new

/-! ### Concrete inputs used by counterexamples and witnesses -/

/-- A board whose only occupied cell is in row 1 (row 0 is empty). -/
def bRow1 : Board :=
  ⟨3, 4, [[none, none, none], [some .I, none, none],
          [none, none, none], [none, none, none]]⟩

/-- Two full shuffles worth of draws, used as a concrete bag. -/
def bagA : List Kind :=
  [.I, .J, .L, .O, .S, .T, .Z, .I, .J, .L, .O, .S, .T, .Z]

/-- A state whose game-over flag is set, with the current piece well inside
an empty `4 × 6` board. -/
def gOver : Game :=
  { board := Board.init 4 6, bag := [.I, .J], next_queue := [.O],
    current := ⟨.O, 0, 1, 1⟩, hold := none, hold_used := false,
    score := 0, level := 1, lines := 0,
    drop_cooldown := 1/2, gravity_timer := 0,
    game_over := true, paused := false }

/-! ### C3: `top_out` only ever looks at row 0 -/

/-- C3 (counterexample): a board with an occupied cell in row 1 and an
empty row 0 makes `top_out` return `false`, refuting the claim that
`top_out` is true whenever one of the two topmost rows holds an occupied
cell. -/
theorem c3_counterexample :
    bRow1.top_out = false ∧ (cellGet bRow1.grid 1 0).isSome = true := by
  decide

/-- C3 (amended): `top_out()` returns true if and only if some occupied
cell exists in the topmost row (row 0); the row `0..1` scan in the source
is short-circuited by the `grid[0][x]` conjunct, so row 1 never decides
the outcome. -/
theorem c3_top_out_row0 (b : Board) :
    b.top_out = true ↔ ∃ x, x < b.w ∧ (cellGet b.grid 0 x).isSome = true := by
  unfold Board.top_out
  rw [List.any_eq_true]
  constructor
  · rintro ⟨x, hx, hf⟩
    rw [Bool.and_eq_true] at hf
    exact ⟨x, List.mem_range.mp hx, hf.1⟩
  · rintro ⟨x, hx, h0⟩
    refine ⟨x, List.mem_range.mpr hx, ?_⟩
    rw [Bool.and_eq_true, List.any_eq_true]
    exact ⟨h0, 0, by simp, h0⟩

/-! ### C4: which actions are no-ops after game over -/

/-- C4 (counterexample): with the game-over flag set, `soft_drop` is not a
no-op — it falls through to `lock_and_clear` and commits the current piece
to the board. -/
theorem c4_counterexample : gOver.soft_drop.board ≠ gOver.board := by
  decide

/-- C4 (amended): after game over, `try_move`, `rotate`, `hold_piece` and
`tick` are guarded and leave the state unchanged (`try_move` returning
`False`); `soft_drop` and `hard_drop` carry no such guard (they mutate the
board if invoked directly, though the main loop never dispatches them once
the game is over). -/
theorem c4_guarded_noops (g : Game) (dx dy dir : Int) (dt : ℚ)
    (h : g.game_over = true) :
    g.try_move dx dy = (g, false) ∧ g.rotate dir = g ∧
      g.hold_piece = g ∧ g.tick dt = g := by
  refine ⟨?_, ?_, ?_, ?_⟩ <;>
    simp [Game.try_move, Game.rotate, Game.hold_piece, Game.tick, h]

/-- C4 (witness): the guarded no-ops, instantiated at a concrete
game-over state. -/
theorem c4_witness :
    gOver.game_over = true ∧
      (gOver.try_move 0 1 = (gOver, false) ∧ gOver.rotate 1 = gOver ∧
        gOver.hold_piece = gOver ∧ gOver.tick (1/4) = gOver) :=
  ⟨rfl, c4_guarded_noops gOver 0 1 1 (1/4) rfl⟩

/-! ### C2: holding twice before any lock -/

/-- C2 (code bug): on a fresh game the first `hold_piece` stores the kind
and calls `spawn_new`, and `spawn_new` resets `hold_used` to `False`; a
second `hold_piece` before any lock is therefore not blocked — it swaps
the current piece with the held one, changing the state.  This contradicts
the claim (and the source's own header comment "Hold piece (once per
drop)"). -/
theorem c2_second_hold_swaps :
    ((Game.init bagA).hold_piece.hold_used = false) ∧
      (Game.init bagA).hold_piece.hold_piece.current.kind ≠
        (Game.init bagA).hold_piece.current.kind := by
  decide

/-! ### C9: rotation is atomic and takes the first fitting kick -/

/-- `find?` skips a prefix on which the predicate is everywhere false. -/
theorem find?_append_left_none {α : Type} {p : α → Bool} :
    ∀ (l1 l2 : List α), (∀ a ∈ l1, p a = false) →
      (l1 ++ l2).find? p = l2.find? p
  | [], _, _ => rfl
  | a :: t, l2, h => by
    have ha : p a = false := h a (List.mem_cons_self a t)
    rw [List.cons_append, List.find?_cons_of_neg _ (by simp [ha])]
    exact find?_append_left_none t l2 fun x hx => h x (List.mem_cons_of_mem a hx)

/-- The target rotation state computed by `Game.rotate`:
`(old_rot + (1 if dir > 0 else -1)) % 4`. -/
def rotTarget (g : Game) (dir : Int) : Fin 4 :=
  g.current.rot + (if 0 < dir then 1 else 3)

/-- The collision test `Game.rotate` runs for one kick candidate. -/
def kickCollides (g : Game) (nr : Fin 4) (c : Int × Int) : Bool :=
  g.board.collides (cellsAt g.current.kind nr (g.current.x + c.1) (g.current.y + c.2))

/-- C9: when neither paused nor over, `rotate` scans the kick candidates
for `(old_rot, new_rot)` in order; if every candidate collides the state
is unchanged, and the first non-colliding candidate updates rotation and
position together in one step. -/
theorem c9_rotate_atomic (g : Game) (dir : Int)
    (h1 : g.game_over = false) (h2 : g.paused = false) :
    ((∀ c ∈ kickTable g.current.kind g.current.rot (rotTarget g dir),
        kickCollides g (rotTarget g dir) c = true) → g.rotate dir = g) ∧
    (∀ c l1 l2,
        kickTable g.current.kind g.current.rot (rotTarget g dir) = l1 ++ c :: l2 →
        (∀ e ∈ l1, kickCollides g (rotTarget g dir) e = true) →
        kickCollides g (rotTarget g dir) c = false →
        g.rotate dir =
          { g with current :=
              { g.current with rot := rotTarget g dir,
                               x := g.current.x + c.1,
                               y := g.current.y + c.2 } }) := by
  constructor
  · intro hall
    have hfind : (kickTable g.current.kind g.current.rot (rotTarget g dir)).find?
        (fun c => !(kickCollides g (rotTarget g dir) c)) = none := by
      rw [List.find?_eq_none]
      intro c hc
      simp [hall c hc]
    simp only [Game.rotate, h1, h2, Bool.or_self, Bool.false_eq_true, if_false]
    rw [show (g.current.rot + (if 0 < dir then 1 else 3)) = rotTarget g dir from rfl]
    rw [show (fun c : Int × Int =>
        !(g.board.collides (cellsAt g.current.kind (rotTarget g dir)
            (g.current.x + c.1) (g.current.y + c.2)))) =
      (fun c => !(kickCollides g (rotTarget g dir) c)) from rfl]
    rw [hfind]
  · intro c l1 l2 hsplit hpre hc
    have hfind : (kickTable g.current.kind g.current.rot (rotTarget g dir)).find?
        (fun c => !(kickCollides g (rotTarget g dir) c)) = some c := by
      rw [hsplit, find?_append_left_none _ _ (fun e he => by simp [hpre e he]),
        List.find?_cons_of_pos _ (by simp [hc])]
    simp only [Game.rotate, h1, h2, Bool.or_self, Bool.false_eq_true, if_false]
    rw [show (g.current.rot + (if 0 < dir then 1 else 3)) = rotTarget g dir from rfl]
    rw [show (fun c : Int × Int =>
        !(g.board.collides (cellsAt g.current.kind (rotTarget g dir)
            (g.current.x + c.1) (g.current.y + c.2)))) =
      (fun c => !(kickCollides g (rotTarget g dir) c)) from rfl]
    rw [hfind]

/-- An ordinary in-play state: `T` piece at the spawn position of an empty
`6 × 8` board. -/
def gPlay : Game :=
  { board := Board.init 6 8, bag := [.I, .J], next_queue := [.O],
    current := Piece.init .T, hold := none, hold_used := false,
    score := 0, level := 1, lines := 0,
    drop_cooldown := 1/2, gravity_timer := 0,
    game_over := false, paused := false }

/-- C9 (witness): rotating the spawned `T` clockwise accepts the first
kick candidate `(0, 0)`. -/
theorem c9_witness :
    gPlay.game_over = false ∧ gPlay.paused = false ∧
      gPlay.rotate 1 =
        { gPlay with current :=
            { gPlay.current with rot := rotTarget gPlay 1,
                                 x := gPlay.current.x + 0,
                                 y := gPlay.current.y + 0 } } :=
  ⟨rfl, rfl, (c9_rotate_atomic gPlay 1 rfl rfl).2 (0, 0)
      [] [(-1, 0), (-1, -1), (0, 2), (-1, 2)] (by decide)
      (by simp) (by decide)⟩

/-! ### C7: line-clear scoring and the level invariant -/

/-- `spawn_new` never touches the score, lines or level counters. -/
theorem spawn_new_counters (g : Game) :
    g.spawn_new.score = g.score ∧ g.spawn_new.lines = g.lines ∧
      g.spawn_new.level = g.level := by
  unfold Game.spawn_new Game.spawnPrep
  split <;> dsimp only <;> split <;> (try split) <;> simp

/-- C7: a lock that clears `c ∈ [1, 4]` rows adds `scoreTable c` times the
pre-clear level to the score and `c` to the line counter; a lock clearing
nothing leaves score, lines and level unchanged; and the invariant
`level = 1 + lines / 10` is preserved by every lock. -/
theorem c7_scoring (g : Game) (hlv : g.level = 1 + g.lines / 10) :
    ((g.board.lock g.current).2 = 0 →
        g.lock_and_clear.score = g.score ∧ g.lock_and_clear.lines = g.lines ∧
          g.lock_and_clear.level = g.level) ∧
    (1 ≤ (g.board.lock g.current).2 → (g.board.lock g.current).2 ≤ 4 →
        g.lock_and_clear.score =
            g.score + scoreTable (g.board.lock g.current).2 * g.level ∧
          g.lock_and_clear.lines = g.lines + (g.board.lock g.current).2) ∧
    g.lock_and_clear.level = 1 + g.lock_and_clear.lines / 10 := by
  have main : g.lock_and_clear.score =
        (if (g.board.lock g.current).2 = 0 then g.score
         else g.score + scoreTable (g.board.lock g.current).2 * g.level) ∧
      g.lock_and_clear.lines =
        (if (g.board.lock g.current).2 = 0 then g.lines
         else g.lines + (g.board.lock g.current).2) ∧
      g.lock_and_clear.level =
        (if (g.board.lock g.current).2 = 0 then g.level
         else if 1 + (g.lines + (g.board.lock g.current).2) / 10 ≠ g.level
              then 1 + (g.lines + (g.board.lock g.current).2) / 10
              else g.level) := by
    unfold Game.lock_and_clear
    dsimp only
    by_cases h0 : (g.board.lock g.current).2 = 0
    · simp only [h0, ne_eq, not_true_eq_false, if_false, ite_true]
      split
      · exact ⟨rfl, rfl, rfl⟩
      · exact spawn_new_counters _
    · simp only [h0, ne_eq, not_false_eq_true, if_true, ite_false]
      split
      · exact ⟨rfl, rfl, rfl⟩
      · exact ⟨(spawn_new_counters _).1, (spawn_new_counters _).2.1,
               (spawn_new_counters _).2.2⟩
  obtain ⟨ms, ml, mv⟩ := main
  refine ⟨fun h0 => ?_, fun hge hle => ?_, ?_⟩
  · rw [ms, ml, mv]
    simp [h0]
  · have h0 : ¬ (g.board.lock g.current).2 = 0 := by omega
    rw [ms, ml]
    simp [h0]
  · rw [mv, ml]
    by_cases h0 : (g.board.lock g.current).2 = 0
    · simp only [h0, ite_true, if_true]
      omega
    · simp only [h0, ite_false, if_false]
      split <;> omega

/-- A state about to clear two rows: rows 2 and 3 of a `4 × 4` board have
their left half filled and the `O` piece sits over the right half. -/
def gClear : Game :=
  { board := ⟨4, 4, [[none, none, none, none], [none, none, none, none],
      [some .I, some .I, none, none], [some .I, some .I, none, none]]⟩,
    bag := [.I, .J], next_queue := [.O], current := ⟨.O, 0, 1, 2⟩,
    hold := none, hold_used := false, score := 0, level := 1, lines := 0,
    drop_cooldown := 1/2, gravity_timer := 0,
    game_over := false, paused := false }

/-- C7 (witness): the scoring theorem instantiated at a double line
clear. -/
theorem c7_witness :
    gClear.level = 1 + gClear.lines / 10 ∧
      (((gClear.board.lock gClear.current).2 = 0 →
          gClear.lock_and_clear.score = gClear.score ∧
            gClear.lock_and_clear.lines = gClear.lines ∧
            gClear.lock_and_clear.level = gClear.level) ∧
        (1 ≤ (gClear.board.lock gClear.current).2 →
            (gClear.board.lock gClear.current).2 ≤ 4 →
            gClear.lock_and_clear.score = gClear.score +
                scoreTable (gClear.board.lock gClear.current).2 * gClear.level ∧
              gClear.lock_and_clear.lines =
                gClear.lines + (gClear.board.lock gClear.current).2) ∧
        gClear.lock_and_clear.level = 1 + gClear.lock_and_clear.lines / 10) :=
  ⟨rfl, c7_scoring gClear rfl⟩

/-! ### C5: the spawn-collision nudge probes -/

/-- If the probe loop rejects every offset, every offset collides. -/
theorem probe_eq_none (b : Board) (p : Piece) :
    ∀ offs, probe b p offs = none →
      ∀ c ∈ offs,
        b.collides (cellsAt p.kind p.rot (p.x + c.1) (p.y + c.2)) = true
  | [], _, _, hc => absurd hc (List.not_mem_nil _)
  | c0 :: rest, h, c, hc => by
    by_cases hcol : b.collides (cellsAt p.kind p.rot (p.x + c0.1) (p.y + c0.2)) = true
    · rcases List.mem_cons.mp hc with rfl | hmem
      · exact hcol
      · exact probe_eq_none b p rest (by simpa [probe, hcol] using h) c hmem
    · simp [probe, hcol] at h

/-- If the probe loop accepts `c`, then `c` is the first non-colliding
offset: everything before it collides and `c` does not. -/
theorem probe_eq_some (b : Board) (p : Piece) :
    ∀ offs c, probe b p offs = some c →
      ∃ l1 l2, offs = l1 ++ c :: l2 ∧
        (∀ e ∈ l1,
          b.collides (cellsAt p.kind p.rot (p.x + e.1) (p.y + e.2)) = true) ∧
        b.collides (cellsAt p.kind p.rot (p.x + c.1) (p.y + c.2)) = false
  | [], c, h => by simp [probe] at h
  | c0 :: rest, c, h => by
    by_cases hcol : b.collides (cellsAt p.kind p.rot (p.x + c0.1) (p.y + c0.2)) = true
    · obtain ⟨l1, l2, hsplit, hpre, hc⟩ :=
        probe_eq_some b p rest c (by simpa [probe, hcol] using h)
      refine ⟨c0 :: l1, l2, by rw [hsplit, List.cons_append], ?_, hc⟩
      intro e he
      rcases List.mem_cons.mp he with rfl | hmem
      · exact hcol
      · exact hpre e hmem
    · have hc0 : c0 = c := by simpa [probe, hcol] using h
      subst hc0
      exact ⟨[], rest, rfl, by simp, by simpa using hcol⟩

/-- The collision test `spawn_new` runs for one nudge offset, on the state
after the queue refill. -/
def nudgeCollides (g : Game) (c : Int × Int) : Bool :=
  g.spawnPrep.board.collides
    (cellsAt g.spawnPrep.current.kind g.spawnPrep.current.rot
      (g.spawnPrep.current.x + c.1) (g.spawnPrep.current.y + c.2))

/-- C5 (amended): when the freshly spawned piece collides, `spawn_new`
probes the offsets `(0,0), (-1,0), (1,0), (0,-1), (-1,-1), (1,-1), (0,1),
(-1,1), (1,1)` — `dy` in `(0, -1, 1)` outer, `dx` in `(0, -1, 1)` inner —
accepting the first non-colliding one, and sets `game_over` when all nine
collide. -/
theorem c5_spawn_probe (g : Game)
    (h : g.spawnPrep.board.collides g.spawnPrep.current.cells = true) :
    (∃ c l1 l2, nudgeOffsets = l1 ++ c :: l2 ∧
        (∀ e ∈ l1, nudgeCollides g e = true) ∧
        nudgeCollides g c = false ∧
        g.spawn_new =
          { g.spawnPrep with current :=
              { g.spawnPrep.current with
                  x := g.spawnPrep.current.x + c.1,
                  y := g.spawnPrep.current.y + c.2 } }) ∨
    ((∀ c ∈ nudgeOffsets, nudgeCollides g c = true) ∧
      g.spawn_new = { g.spawnPrep with game_over := true }) := by
  have hdef : g.spawn_new =
      (if g.spawnPrep.board.collides g.spawnPrep.current.cells then
        match probe g.spawnPrep.board g.spawnPrep.current nudgeOffsets with
        | some c =>
          { g.spawnPrep with current :=
              { g.spawnPrep.current with
                  x := g.spawnPrep.current.x + c.1,
                  y := g.spawnPrep.current.y + c.2 } }
        | none => { g.spawnPrep with game_over := true }
      else g.spawnPrep) := rfl
  rw [h] at hdef
  rcases hp : probe g.spawnPrep.board g.spawnPrep.current nudgeOffsets with _ | c
  · rw [hp] at hdef
    exact Or.inr ⟨probe_eq_none _ _ _ hp, by simpa using hdef⟩
  · rw [hp] at hdef
    obtain ⟨l1, l2, hsplit, hpre, hc⟩ := probe_eq_some _ _ _ _ hp
    exact Or.inl ⟨c, l1, l2, hsplit, hpre, hc, by simpa using hdef⟩

/-- The nudge priority order asserted by the claim. -/
def claimNudgeOffsets : List (Int × Int) :=
  [(0,0), (0,-1), (0,1), (-1,0), (-1,1), (-1,-1), (1,0), (1,1), (1,-1)]

/-- A state about to spawn the queued `O` onto a board whose only occupied
cell is `(5, 0)`, which blocks the canonical spawn cells. -/
def gNudge : Game :=
  { board := ⟨8, 4, [[none, none, none, none, none, some .I, none, none],
      List.replicate 8 none, List.replicate 8 none, List.replicate 8 none]⟩,
    bag := [.I], next_queue := [.O], current := Piece.init .T,
    hold := none, hold_used := false, score := 0, level := 1, lines := 0,
    drop_cooldown := 1/2, gravity_timer := 0,
    game_over := false, paused := false }

/-- C5 (counterexample): for `gNudge` the spawn position collides; the
first acceptable offset of the claim's priority list is `(0, 1)` (landing
the piece at `(3, 1)`), but the code accepts `(-1, 0)` and lands the piece
at `(2, 0)` — the claim's priority order is not the source's. -/
theorem c5_counterexample :
    gNudge.spawnPrep.board.collides gNudge.spawnPrep.current.cells = true ∧
      probe gNudge.spawnPrep.board gNudge.spawnPrep.current claimNudgeOffsets
          = some (0, 1) ∧
      gNudge.spawn_new.current.x = 2 ∧ gNudge.spawn_new.current.y = 0 ∧
      ¬ (gNudge.spawn_new.current.x = gNudge.spawnPrep.current.x + 0 ∧
          gNudge.spawn_new.current.y = gNudge.spawnPrep.current.y + 1) := by
  decide

/-- C5 (witness): the amended probe theorem instantiated at `gNudge`. -/
theorem c5_witness :
    gNudge.spawnPrep.board.collides gNudge.spawnPrep.current.cells = true ∧
      ((∃ c l1 l2, nudgeOffsets = l1 ++ c :: l2 ∧
          (∀ e ∈ l1, nudgeCollides gNudge e = true) ∧
          nudgeCollides gNudge c = false ∧
          gNudge.spawn_new =
            { gNudge.spawnPrep with current :=
                { gNudge.spawnPrep.current with
                    x := gNudge.spawnPrep.current.x + c.1,
                    y := gNudge.spawnPrep.current.y + c.2 } }) ∨
        ((∀ c ∈ nudgeOffsets, nudgeCollides gNudge c = true) ∧
          gNudge.spawn_new = { gNudge.spawnPrep with game_over := true })) :=
  ⟨by decide, c5_spawn_probe gNudge (by decide)⟩

/-! ### C6: the 7-bag randomizer is fair -/

/-- `list(PIECES.keys())`: the bag contents in dict insertion order. -/
def basePieces : List Kind := [.I, .J, .L, .O, .S, .T, .Z]

/-- Modelled from the spec: `random.shuffle(pieces)` reorders the list in
place using the library PRNG, which is not part of this repository.  The
PRNG is abstracted as an oracle `shuffle` giving the reordered list for
each round; the theorems constrain it to produce a permutation of its
input, which is the contract of `random.shuffle`. -/
def bagBlocks (shuffle : Nat → List Kind → List Kind) : Nat → List Kind
  | 0 => shuffle 0 basePieces
  | n + 1 => shuffle (n + 1) (bagBlocks shuffle n)

/-- The `n`-th value yielded by `bag_generator()`: position `n % 7` of
shuffle round `n / 7`. -/
def bagDraw (shuffle : Nat → List Kind → List Kind) (n : Nat) : Kind :=
  (bagBlocks shuffle (n / 7)).getD (n % 7) .I

/-- Every shuffle round yields a permutation of the seven kinds. -/
theorem bagBlocks_perm (shuffle : Nat → List Kind → List Kind)
    (hs : ∀ n l, (shuffle n l).Perm l) :
    ∀ i, (bagBlocks shuffle i).Perm basePieces
  | 0 => hs 0 basePieces
  | i + 1 => (hs (i + 1) (bagBlocks shuffle i)).trans (bagBlocks_perm shuffle hs i)

/-- Reading a list back off its `getD` values over `range` rebuilds it. -/
theorem map_getD_range {α : Type} (d : α) :
    ∀ (l : List α), (List.range l.length).map (fun j => l.getD j d) = l
  | [] => rfl
  | a :: t => by
    rw [List.length_cons, List.range_succ_eq_map, List.map_cons, List.map_map]
    refine congrArg (a :: ·) ?_
    have : ((fun j => (a :: t).getD j d) ∘ Nat.succ) = fun j => t.getD j d := rfl
    rw [this, map_getD_range d t]

/-- C6: for every shuffle oracle respecting the `random.shuffle` contract
and every block index `i`, the seven draws at indices `[7i, 7i + 7)` of
`bag_generator` form a permutation of the seven kinds. -/
theorem c6_bag_fairness (shuffle : Nat → List Kind → List Kind)
    (hs : ∀ n l, (shuffle n l).Perm l) (i : Nat) :
    ((List.range 7).map (fun j => bagDraw shuffle (7 * i + j))).Perm basePieces := by
  have hperm := bagBlocks_perm shuffle hs i
  have hlen : (bagBlocks shuffle i).length = 7 := hperm.length_eq
  have hmap : (List.range 7).map (fun j => bagDraw shuffle (7 * i + j)) =
      (List.range 7).map (fun j => (bagBlocks shuffle i).getD j .I) := by
    refine List.map_congr_left ?_
    intro j hj
    have hj7 : j < 7 := List.mem_range.mp hj
    have hdiv : (7 * i + j) / 7 = i := by omega
    have hmod : (7 * i + j) % 7 = j := by omega
    rw [bagDraw, hdiv, hmod]
  rw [hmap]
  rw [show (7 : Nat) = (bagBlocks shuffle i).length from hlen.symm,
    map_getD_range]
  exact hperm

/-- C6 (witness): the fairness theorem at the identity oracle and block 2. -/
theorem c6_witness :
    (∀ n l, ((fun (_ : Nat) (l : List Kind) => l) n l).Perm l) ∧
      ((List.range 7).map
          (fun j => bagDraw (fun _ l => l) (7 * 2 + j))).Perm basePieces :=
  ⟨fun _ l => List.Perm.refl l,
    c6_bag_fairness (fun _ l => l) (fun _ l => List.Perm.refl l) 2⟩

/-! ### C10: draws consumed by `Game.__init__` -/

/-- No piece collides at the canonical spawn position of the standard
empty board. -/
theorem noCollideSpawn (k : Kind) :
    (Board.init 10 20).collides (cellsAt k 0 3 0) = false := by
  cases k <;> decide

/-- The kind sequence of successive spawns: the kinds that become the
active piece, in order, starting from the given state. -/
def activeKinds (g : Game) : Nat → Kind
  | 0 => g.current.kind
  | n + 1 => activeKinds g.spawn_new n

/-- C10 (counterexample): constructing a game consumes seven draws, not
six — the queue refill inside the constructor's final `spawn_new()` call
takes a seventh. -/
theorem c10_counterexample :
    (Game.init bagA).bag = bagA.drop 7 ∧ (Game.init bagA).bag ≠ bagA.drop 6 := by
  decide

/-- C10 (amended): construction consumes exactly seven draws — five into
the preview queue, a sixth that is made current and then discarded by the
constructor's `spawn_new()` (it never becomes active nor enters the
queue), and a seventh appended to the queue by that spawn.  The active
kinds are draws 1–5 followed by draws 7, 8, … (each spawn activating the
queue head), so the first seven pieces actually played need not be a
permutation of the seven kinds, as the concrete bag `bagA` shows. -/
theorem c10_init_draws :
    (∀ bag : List Kind, 7 ≤ bag.length →
        (Game.init bag).current.kind = bag.getD 0 .I ∧
        (Game.init bag).next_queue =
          [bag.getD 1 .I, bag.getD 2 .I, bag.getD 3 .I,
            bag.getD 4 .I, bag.getD 6 .I] ∧
        (Game.init bag).bag = bag.drop 7) ∧
    (∀ g : Game, g.next_queue ≠ [] →
        g.spawn_new.current.kind = g.next_queue.getD 0 .I) ∧
    ((List.range 7).map (activeKinds (Game.init bagA))
        = [.I, .J, .L, .O, .S, .Z, .I] ∧
      ¬ ((List.range 7).map (activeKinds (Game.init bagA))).Perm basePieces) := by
  refine ⟨?_, ?_, by decide⟩
  · intro bag h
    rcases bag with _ | ⟨x0, bag⟩; · simp at h
    rcases bag with _ | ⟨x1, bag⟩; · simp at h
    rcases bag with _ | ⟨x2, bag⟩; · simp at h
    rcases bag with _ | ⟨x3, bag⟩; · simp at h
    rcases bag with _ | ⟨x4, bag⟩; · simp at h
    rcases bag with _ | ⟨x5, bag⟩; · simp at h
    rcases bag with _ | ⟨x6, bag⟩; · simp at h
    refine ⟨?_, ?_, ?_⟩ <;>
      simp [Game.init, drawN, drawBag, Game.spawn_new, Game.spawnPrep,
        Piece.cells, Piece.init, noCollideSpawn, List.getD]
  · intro g hq
    rcases hqe : g.next_queue with _ | ⟨k, rest⟩
    · exact absurd hqe hq
    · unfold Game.spawn_new Game.spawnPrep
      rw [hqe]
      dsimp only
      split
      · split <;> simp [Piece.init, List.getD]
      · simp [Piece.init, List.getD]

/-- C10 (witness): the draw accounting instantiated at the concrete bag. -/
theorem c10_witness :
    7 ≤ bagA.length ∧
      ((Game.init bagA).current.kind = bagA.getD 0 .I ∧
        (Game.init bagA).next_queue =
          [bagA.getD 1 .I, bagA.getD 2 .I, bagA.getD 3 .I,
            bagA.getD 4 .I, bagA.getD 6 .I] ∧
        (Game.init bagA).bag = bagA.drop 7) :=
  ⟨by decide, c10_init_draws.1 bagA (by decide)⟩

/-! ### C8: hard drop locks at the ghost row -/

/-- The ghost descent never moves the piece up. -/
theorem ghostAux_ge (b : Board) (k : Kind) (r : Fin 4) (x : Int) :
    ∀ (fuel : Nat) (y : Int), y ≤ ghostAux b k r x fuel y
  | 0, y => le_refl y
  | fuel + 1, y => by
    unfold ghostAux
    split
    · exact le_refl y
    · exact le_trans (by omega) (ghostAux_ge b k r x fuel (y + 1))

/-- `ghost_y` run with an explicit fuel. -/
def ghostYFuel (g : Game) (fuel : Nat) : Int :=
  ghostAux g.board g.current.kind g.current.rot g.current.x fuel g.current.y

/-- The state `g` with its current piece moved down to the row the ghost
descent with the given fuel reaches. -/
def atGhostFuel (g : Game) (fuel : Nat) : Game :=
  { g with current := { g.current with y := ghostYFuel g fuel } }

/-- The state on which `hard_drop` calls `lock_and_clear`: the current
piece moved to the pre-drop `ghost_y()` row, and the score raised by twice
the descent distance. -/
def atGhostScored (g : Game) : Game :=
  { g with current := { g.current with y := g.ghost_y },
           score := g.score + 2 * (g.ghost_y - g.current.y).toNat }

/-- The state after one successful `try_move(0, 1)` step. -/
def movedDown (g : Game) : Game :=
  { g with current := { g.current with x := g.current.x + 0,
                                       y := g.current.y + 1 } }

/-- One non-colliding step folds into the ghost descent. -/
theorem ghostYFuel_movedDown (g : Game) (fuel : Nat)
    (hC : ¬ g.board.collides
        (cellsAt g.current.kind g.current.rot g.current.x (g.current.y + 1)) = true) :
    ghostYFuel (movedDown g) fuel = ghostYFuel g (fuel + 1) := by
  have hstep : ghostYFuel g (fuel + 1) =
      if g.board.collides
          (cellsAt g.current.kind g.current.rot g.current.x (g.current.y + 1))
      then g.current.y
      else ghostAux g.board g.current.kind g.current.rot g.current.x fuel
        (g.current.y + 1) := rfl
  rw [hstep, if_neg (by simp [hC])]
  unfold ghostYFuel movedDown
  dsimp only
  rw [Int.add_zero]

/-- One non-colliding step folds into the ghost target state. -/
theorem atGhostFuel_movedDown (g : Game) (fuel : Nat)
    (hC : ¬ g.board.collides
        (cellsAt g.current.kind g.current.rot g.current.x (g.current.y + 1)) = true) :
    atGhostFuel (movedDown g) fuel = atGhostFuel g (fuel + 1) := by
  unfold atGhostFuel
  rw [ghostYFuel_movedDown g fuel hC]
  unfold movedDown
  dsimp only
  rw [Int.add_zero]

/-- The `hard_drop` descent loop moves the current piece to exactly the
row computed by the `ghost_y` loop with the same fuel, counting one step
per row, and touches nothing else. -/
theorem hardDropAux_ghost :
    ∀ (fuel : Nat) (g : Game) (d : Nat), g.game_over = false → g.paused = false →
      g.hardDropAux fuel d =
        (atGhostFuel g fuel, d + (ghostYFuel g fuel - g.current.y).toNat)
  | 0, g, d, _, _ => by
    simp [Game.hardDropAux, atGhostFuel, ghostYFuel, ghostAux]
  | fuel + 1, g, d, h1, h2 => by
    by_cases hC : g.board.collides
        (cellsAt g.current.kind g.current.rot g.current.x (g.current.y + 1)) = true
    · have hfail : g.try_move 0 1 = (g, false) := by
        simp [Game.try_move, h1, h2, Int.add_zero, hC]
      have hgy : ghostYFuel g (fuel + 1) = g.current.y := by
        unfold ghostYFuel ghostAux
        simp [hC]
      unfold Game.hardDropAux
      rw [hfail]
      dsimp only
      rw [if_neg (by simp)]
      unfold atGhostFuel
      rw [hgy]
      simp
    · have hmove : g.try_move 0 1 = (movedDown g, true) := by
        simp [Game.try_move, movedDown, h1, h2, hC]
      have hrec := hardDropAux_ghost fuel (movedDown g) (d + 1) h1 h2
      have hge : g.current.y + 1 ≤ ghostYFuel g (fuel + 1) := by
        rw [← ghostYFuel_movedDown g fuel hC]
        exact ghostAux_ge _ _ _ _ fuel _
      have hy2 : (movedDown g).current.y = g.current.y + 1 := rfl
      unfold Game.hardDropAux
      rw [hmove]
      dsimp only
      rw [if_pos rfl, hrec, atGhostFuel_movedDown g fuel hC,
        ghostYFuel_movedDown g fuel hC, hy2]
      refine Prod.ext rfl ?_
      dsimp only
      omega

/-- C8: when neither paused nor over, `hard_drop` is `lock_and_clear`
applied to the state whose current piece sits at the pre-drop `ghost_y()`
row and whose score took the `2 * distance` hard-drop award (before any
line-clear award inside the lock). -/
theorem c8_hard_drop_ghost (g : Game)
    (h1 : g.game_over = false) (h2 : g.paused = false) :
    g.hard_drop = (atGhostScored g).lock_and_clear := by
  unfold Game.hard_drop
  dsimp only
  rw [hardDropAux_ghost g.dropFuel g 0 h1 h2]
  dsimp only
  rw [Nat.zero_add]
  rfl

/-- C8 (witness): hard-dropping the spawned `T` on the empty `6 × 8`
board. -/
theorem c8_witness :
    gPlay.game_over = false ∧ gPlay.paused = false ∧
      gPlay.hard_drop = (atGhostScored gPlay).lock_and_clear :=
  ⟨rfl, rfl, c8_hard_drop_ghost gPlay rfl rfl⟩

/-! ### C1: `Board.lock` — list-level lemmas about the clear loop -/

/-- Deleting the element right after a prefix keeps the prefix. -/
theorem eraseIdx_len_append {α : Type} :
    ∀ (s : List α) (r : α) (t : List α), (s ++ r :: t).eraseIdx s.length = s ++ t
  | [], _, _ => rfl
  | a :: s, r, t => by
    rw [List.cons_append, List.length_cons, List.eraseIdx_cons_succ,
      eraseIdx_len_append s r t]
    rfl

/-- Successor membership passes through the `(· + 1)` shift. -/
theorem mem_map_succ (l : List Nat) (j : Nat) : j + 1 ∈ l.map (· + 1) ↔ j ∈ l := by
  simp [List.mem_map]

/-- `0` is never in a `(· + 1)`-shifted list. -/
theorem zero_not_mem_map_succ (l : List Nat) : ¬ 0 ∈ l.map (· + 1) := by
  simp [List.mem_map]

/-- `idxP p l` holds exactly the positions of `l` whose entry satisfies
`p`. -/
theorem idxP_mem {α : Type} (p : α → Bool) :
    ∀ (l : List α) (j : Nat),
      j ∈ idxP p l ↔ ∃ h : j < l.length, p (l.get ⟨j, h⟩) = true
  | [], j => by simp [idxP]
  | a :: t, 0 => by
    by_cases hp : p a = true <;> simp [idxP, hp, zero_not_mem_map_succ]
  | a :: t, j + 1 => by
    by_cases hp : p a = true <;>
      simp [idxP, hp, mem_map_succ, idxP_mem p t j, Nat.succ_lt_succ_iff]

/-- `idxP` lists each position at most once. -/
theorem idxP_nodup {α : Type} (p : α → Bool) : ∀ (l : List α), (idxP p l).Nodup
  | [] => List.nodup_nil
  | a :: t => by
    have hmap : ((idxP p t).map (· + 1)).Nodup :=
      List.Nodup.map (fun i j hij => by omega) (idxP_nodup p t)
    by_cases hp : p a = true <;>
      simp [idxP, hp, hmap, zero_not_mem_map_succ]

/-- The inner `del`/`insert` loop of `Board.lock`, folded over the indices
of the rows satisfying `p` shifted past an untouched prefix `s`, prepends
one copy of `e` per such row and keeps the remaining rows in order. -/
theorem clearLoop_append {α : Type} (p : α → Bool) (e : α) :
    ∀ (t s : List α),
      List.foldl (clearOne e) (s ++ t) ((idxP p t).map (· + s.length)) =
        List.replicate (idxP p t).length e ++ (s ++ t.filter (fun a => !(p a)))
  | [], s => by simp [idxP]
  | a :: t, s => by
    by_cases hp : p a = true
    · have hidx : idxP p (a :: t) = 0 :: (idxP p t).map (· + 1) := by
        simp [idxP, hp]
      rw [hidx, List.map_cons, List.foldl_cons]
      have hstep : clearOne e (s ++ a :: t) (0 + s.length) = (e :: s) ++ t := by
        unfold clearOne
        rw [Nat.zero_add, eraseIdx_len_append]
        rfl
      rw [hstep]
      have hmap : ((idxP p t).map (· + 1)).map (· + s.length) =
          (idxP p t).map (· + (e :: s).length) := by
        rw [List.map_map]
        refine List.map_congr_left ?_
        intro i _
        simp
        omega
      rw [hmap, clearLoop_append p e t (e :: s)]
      simp [List.filter_cons, hp, List.replicate_succ', List.append_assoc]
    · have hidx : idxP p (a :: t) = (idxP p t).map (· + 1) := by
        simp [idxP, hp]
      rw [hidx]
      have hmap : ((idxP p t).map (· + 1)).map (· + s.length) =
          (idxP p t).map (· + (s ++ [a]).length) := by
        rw [List.map_map]
        refine List.map_congr_left ?_
        intro i _
        simp
        omega
      have hs : s ++ a :: t = (s ++ [a]) ++ t := by simp
      rw [hmap, hs, clearLoop_append p e t (s ++ [a])]
      simp [List.filter_cons, hp, List.append_assoc]

/-- The clear loop of `Board.lock` over the full-row indices of `g` itself:
remove every row satisfying `p` and prepend that many copies of `e`. -/
theorem clearLoop_eq {α : Type} (p : α → Bool) (e : α) (g : List α) :
    List.foldl (clearOne e) g (idxP p g) =
      List.replicate (idxP p g).length e ++ g.filter (fun a => !(p a)) := by
  have h := clearLoop_append p e g []
  simpa using h

/-! ### C1: lemmas about the write phase of `Board.lock` -/

/-- `set` leaves other positions of a `getD` read unchanged. -/
theorem getD_set_ne {α : Type} (l : List α) (d : α) {i j : Nat} (h : i ≠ j) (a : α) :
    (l.set i a).getD j d = l.getD j d := by
  rw [List.getD_eq_getElem?_getD, List.getElem?_set_ne h,
    ← List.getD_eq_getElem?_getD]

/-- `set` at an in-range position is read back by `getD`. -/
theorem getD_set_self {α : Type} (l : List α) (d : α) {i : Nat}
    (h : i < l.length) (a : α) : (l.set i a).getD i d = a := by
  rw [List.getD_eq_getElem?_getD, List.getElem?_set_eq_of_lt a h]
  rfl

/-- Writing one cell preserves the number of rows. -/
theorem writeCell_length (hgt : Nat) (k : Kind) (g : List Row) (c : Int × Int) :
    (writeCell hgt k g c).length = g.length := by
  unfold writeCell
  split
  · exact List.length_set ..
  · rfl

/-- Writing all cells preserves the number of rows. -/
theorem writeCells_length (hgt : Nat) (k : Kind) :
    ∀ (cs : List (Int × Int)) (g : List Row),
      (writeCells hgt k g cs).length = g.length
  | [], _ => rfl
  | c :: cs, g => by
    show (writeCells hgt k (writeCell hgt k g c) cs).length = g.length
    rw [writeCells_length hgt k cs (writeCell hgt k g c), writeCell_length]

/-- Writing one cell leaves every other row unchanged. -/
theorem writeCell_getD_of_ne (hgt : Nat) (k : Kind) (g : List Row)
    (c : Int × Int) (j : Nat) (hne : (j : Int) ≠ c.2) :
    (writeCell hgt k g c).getD j [] = g.getD j [] := by
  unfold writeCell
  split
  · next hin =>
    refine getD_set_ne g [] ?_ _
    intro he
    have h1 : 0 ≤ c.2 := hin.1
    exact hne (by omega)
  · rfl

/-- Writing cells leaves every row not named among the cells' `y`
coordinates unchanged. -/
theorem writeCells_getD_of_ne (hgt : Nat) (k : Kind) :
    ∀ (cs : List (Int × Int)) (g : List Row) (j : Nat),
      (∀ c ∈ cs, (j : Int) ≠ c.2) →
      (writeCells hgt k g cs).getD j [] = g.getD j []
  | [], _, _, _ => rfl
  | c :: cs, g, j, h => by
    show (writeCells hgt k (writeCell hgt k g c) cs).getD j [] = _
    rw [writeCells_getD_of_ne hgt k cs _ j
        (fun e he => h e (List.mem_cons_of_mem c he)),
      writeCell_getD_of_ne hgt k g c j (h c (List.mem_cons_self c cs))]

/-- Writing one cell preserves each row's width. -/
theorem writeCell_row_length (hgt : Nat) (k : Kind) (g : List Row)
    (c : Int × Int) (j : Nat) :
    ((writeCell hgt k g c).getD j []).length = (g.getD j []).length := by
  unfold writeCell
  split
  · by_cases hj : c.2.toNat = j
    · subst hj
      by_cases hlt : c.2.toNat < g.length
      · rw [getD_set_self g [] hlt, List.length_set]
      · rw [List.set_eq_of_length_le (by omega)]
    · rw [getD_set_ne g [] hj]
  · rfl

/-- Writing all cells preserves each row's width. -/
theorem writeCells_row_length (hgt : Nat) (k : Kind) :
    ∀ (cs : List (Int × Int)) (g : List Row) (j : Nat),
      ((writeCells hgt k g cs).getD j []).length = (g.getD j []).length
  | [], _, _ => rfl
  | c :: cs, g, j => by
    show ((writeCells hgt k (writeCell hgt k g c) cs).getD j []).length = _
    rw [writeCells_row_length hgt k cs _ j, writeCell_row_length]

/-- An occupied read is an in-range read. -/
theorem cellGet_some_bounds {g : List Row} {y x : Nat} {k : Kind}
    (h : cellGet g y x = some k) :
    y < g.length ∧ x < (g.getD y []).length := by
  constructor
  · by_contra hy
    have hd : g.getD y [] = [] := List.getD_eq_default _ _ (by omega)
    rw [cellGet, hd] at h
    simp [List.getD] at h
  · by_contra hx
    rw [cellGet, List.getD_eq_default _ _ (by omega)] at h
    simp at h

/-- Each single write preserves cells already holding the locked kind. -/
theorem writeCell_keeps_some (hgt : Nat) (k : Kind) (g : List Row)
    (c : Int × Int) {y x : Nat} (h : cellGet g y x = some k) :
    cellGet (writeCell hgt k g c) y x = some k := by
  obtain ⟨hy, hx⟩ := cellGet_some_bounds h
  unfold writeCell
  split
  · by_cases hj : c.2.toNat = y
    · subst hj
      rw [cellGet, getD_set_self g [] hy]
      by_cases hxx : c.1.toNat = x
      · subst hxx
        rw [getD_set_self _ none hx]
      · rw [getD_set_ne _ none hxx]
        exact h
    · rw [cellGet, getD_set_ne g [] hj]
      exact h
  · exact h

/-- The whole write phase preserves cells already holding the locked
kind. -/
theorem writeCells_keeps_some (hgt : Nat) (k : Kind) :
    ∀ (cs : List (Int × Int)) (g : List Row) (y x : Nat),
      cellGet g y x = some k →
      cellGet (writeCells hgt k g cs) y x = some k
  | [], _, _, _, h => h
  | c :: cs, g, y, x, h => by
    show cellGet (writeCells hgt k (writeCell hgt k g c) cs) y x = some k
    exact writeCells_keeps_some hgt k cs _ y x (writeCell_keeps_some hgt k g c h)

/-- Each in-range cell of the piece reads back the piece's kind after the
write phase. -/
theorem writeCells_writes (hgt : Nat) (k : Kind) :
    ∀ (cs : List (Int × Int)) (g : List Row) (x y : Int),
      (x, y) ∈ cs → 0 ≤ y → y < (hgt : Int) →
      y.toNat < g.length → x.toNat < (g.getD y.toNat []).length →
      cellGet (writeCells hgt k g cs) y.toNat x.toNat = some k
  | [], _, _, _, hmem, _, _, _, _ => absurd hmem (List.not_mem_nil _)
  | c :: cs, g, x, y, hmem, hy0, hyh, hylen, hxlen => by
    rcases List.mem_cons.mp hmem with heq | hmem2
    · have hwrite : cellGet (writeCell hgt k g c) y.toNat x.toNat = some k := by
        rw [← heq]
        unfold writeCell
        dsimp only
        rw [if_pos ⟨hy0, hyh⟩, cellGet, getD_set_self g [] hylen,
          getD_set_self _ none hxlen]
      show cellGet (writeCells hgt k (writeCell hgt k g c) cs) y.toNat x.toNat
          = some k
      exact writeCells_keeps_some hgt k cs _ _ _ hwrite
    · show cellGet (writeCells hgt k (writeCell hgt k g c) cs) y.toNat x.toNat
          = some k
      refine writeCells_writes hgt k cs _ x y hmem2 hy0 hyh ?_ ?_
      · rw [writeCell_length]
        exact hylen
      · rw [writeCell_row_length]
        exact hxlen

/-- Every piece has exactly four cells in every rotation. -/
theorem cellsAt_length (k : Kind) (r : Fin 4) (x y : Int) :
    (cellsAt k r x y).length = 4 := by
  cases k <;> fin_cases r <;> rfl

/-- The grid after the write phase of `Board.lock p` on `b`. -/
def lockWritten (b : Board) (p : Piece) : List Row :=
  writeCells b.h p.kind b.grid p.cells

/-- On a board without full rows, any row that is full after the write
phase is a row some piece cell was written into. -/
theorem full_row_mem_writes (b : Board) (p : Piece)
    (hnf : ∀ r ∈ b.grid, isFull r = false) :
    ∀ j ∈ idxP isFull (lockWritten b p), (j : Int) ∈ p.cells.map Prod.snd := by
  intro j hj
  rw [idxP_mem] at hj
  obtain ⟨hlt, hfull⟩ := hj
  by_contra hnot
  have huntouched : (lockWritten b p).getD j [] = b.grid.getD j [] :=
    writeCells_getD_of_ne _ _ _ _ _
      (fun c hc he => hnot (he ▸ List.mem_map_of_mem Prod.snd hc))
  have hlen : (lockWritten b p).length = b.grid.length :=
    writeCells_length _ _ _ _
  have hjb : j < b.grid.length := by omega
  have hrow : b.grid.getD j [] ∈ b.grid := by
    rw [List.getD_eq_getElem _ _ hjb]
    exact List.getElem_mem hjb
  have hget : (lockWritten b p).get ⟨j, hlt⟩ = (lockWritten b p).getD j [] := by
    rw [List.get_eq_getElem, List.getD_eq_getElem _ _ hlt]
  rw [hget, huntouched] at hfull
  rw [hnf _ hrow] at hfull
  exact Bool.false_ne_true hfull

/-- C1 (amended): on a well-formed board (rows of width `w`, `h` rows)
with no fully occupied row, locking a piece whose cells are within the
column range first writes the piece's kind into each of its cells with
`y ∈ [0, h)`, then removes every fully occupied row and prepends that many
empty rows (preserving the order of the remaining rows), and returns the
number of removed rows, which is at most 4; afterwards no row of the board
is fully occupied. -/
theorem c1_lock_spec (b : Board) (p : Piece)
    (hlen : b.grid.length = b.h)
    (hrow : ∀ r ∈ b.grid, r.length = b.w)
    (hx : ∀ c ∈ p.cells, 0 ≤ c.1 ∧ c.1 < (b.w : Int))
    (hnf : ∀ r ∈ b.grid, isFull r = false) :
    (∀ c ∈ p.cells, 0 ≤ c.2 → c.2 < (b.h : Int) →
        cellGet (lockWritten b p) c.2.toNat c.1.toNat = some p.kind) ∧
    (b.lock p).2 = (idxP isFull (lockWritten b p)).length ∧
    (b.lock p).1.grid =
      List.replicate (b.lock p).2 (List.replicate b.w none) ++
        (lockWritten b p).filter (fun r => !(isFull r)) ∧
    (b.lock p).2 ≤ 4 ∧
    (∀ r ∈ (b.lock p).1.grid, isFull r = false) := by
  have clause1 : ∀ c ∈ p.cells, 0 ≤ c.2 → c.2 < (b.h : Int) →
      cellGet (lockWritten b p) c.2.toNat c.1.toNat = some p.kind := by
    intro c hc hy0 hyh
    obtain ⟨hx0, hxw⟩ := hx c hc
    have hylen : c.2.toNat < b.grid.length := by omega
    have hrlen : (b.grid.getD c.2.toNat []).length = b.w := by
      apply hrow
      rw [List.getD_eq_getElem _ _ hylen]
      exact List.getElem_mem hylen
    have hxlen : c.1.toNat < (b.grid.getD c.2.toNat []).length := by
      rw [hrlen]
      omega
    exact writeCells_writes b.h p.kind p.cells b.grid c.1 c.2 hc hy0 hyh
      hylen hxlen
  have clause2 : (b.lock p).2 = (idxP isFull (lockWritten b p)).length := rfl
  have clause3 : (b.lock p).1.grid =
      List.replicate (b.lock p).2 (List.replicate b.w none) ++
        (lockWritten b p).filter (fun r => !(isFull r)) :=
    clearLoop_eq isFull (List.replicate b.w none) (lockWritten b p)
  have hsub : idxP isFull (lockWritten b p) ⊆
      (p.cells.map Prod.snd).map Int.toNat := by
    intro j hj
    exact List.mem_map.mpr ⟨(j : Int), full_row_mem_writes b p hnf j hj, by omega⟩
  have hle :=
    (List.subperm_of_subset (idxP_nodup isFull (lockWritten b p)) hsub).length_le
  have hlen4 : ((p.cells.map Prod.snd).map Int.toNat).length = 4 := by
    rw [List.length_map, List.length_map, Piece.cells, cellsAt_length]
  have clause4 : (b.lock p).2 ≤ 4 := by
    rw [clause2]
    omega
  refine ⟨clause1, clause2, clause3, clause4, ?_⟩
  intro r hr
  rw [clause3] at hr
  rcases List.mem_append.mp hr with hrep | hfil
  · obtain ⟨hne, hre⟩ := List.mem_replicate.mp hrep
    have hnil : idxP isFull (lockWritten b p) ≠ [] := by
      intro hnil
      apply hne
      rw [clause2, hnil]
      rfl
    obtain ⟨j, hj⟩ := List.exists_mem_of_ne_nil _ hnil
    obtain ⟨c, hc, _⟩ := List.mem_map.mp (full_row_mem_writes b p hnf j hj)
    obtain ⟨hx0, hxw⟩ := hx c hc
    obtain ⟨m, hm⟩ := Nat.exists_eq_succ_of_ne_zero (by omega : b.w ≠ 0)
    rw [hre, hm]
    simp [isFull, List.replicate_succ]
  · simpa using (List.mem_filter.mp hfil).2

/-- A board whose rows 1–5 are already fully occupied (something no lock
ever produces, but the claim quantifies over every board). -/
def bFive : Board :=
  ⟨2, 6, [[none, none],
    [some .I, some .I], [some .I, some .I], [some .I, some .I],
    [some .I, some .I], [some .I, some .I]]⟩

/-- An `O` piece hovering entirely above the board (in-range columns, all
cell rows negative). -/
def pAbove : Piece := ⟨.O, 0, -1, -3⟩

/-- C1 (counterexample): on a board that already holds five full rows,
`lock` returns 5, refuting the claimed `0 ≤ cleared ≤ 4` bound for
arbitrary boards. -/
theorem c1_counterexample :
    (bFive.lock pAbove).2 = 5 ∧ ¬ ((bFive.lock pAbove).2 ≤ 4) := by
  decide

/-- C1 (witness): the lock specification at the double-clear position of
`gClear`. -/
theorem c1_witness :
    (gClear.board.grid.length = gClear.board.h ∧
      (∀ r ∈ gClear.board.grid, r.length = gClear.board.w) ∧
      (∀ c ∈ gClear.current.cells, 0 ≤ c.1 ∧ c.1 < (gClear.board.w : Int)) ∧
      (∀ r ∈ gClear.board.grid, isFull r = false)) ∧
    ((∀ c ∈ gClear.current.cells, 0 ≤ c.2 → c.2 < (gClear.board.h : Int) →
        cellGet (lockWritten gClear.board gClear.current) c.2.toNat c.1.toNat =
          some gClear.current.kind) ∧
      (gClear.board.lock gClear.current).2 =
        (idxP isFull (lockWritten gClear.board gClear.current)).length ∧
      (gClear.board.lock gClear.current).1.grid =
        List.replicate (gClear.board.lock gClear.current).2
            (List.replicate gClear.board.w none) ++
          (lockWritten gClear.board gClear.current).filter
            (fun r => !(isFull r)) ∧
      (gClear.board.lock gClear.current).2 ≤ 4 ∧
      (∀ r ∈ (gClear.board.lock gClear.current).1.grid, isFull r = false)) :=
  ⟨⟨by decide, by decide, by decide, by decide⟩,
    c1_lock_spec gClear.board gClear.current
      (by decide) (by decide) (by decide) (by decide)⟩

end Tetris
